import Mathlib

/-!
Verification of the Capacity-Aware Case Assignment Engine of the hackathon
dispatch dashboard.  The definitions below are a shallow embedding of
frontend/src/data/api.ts (and the distance helper of frontend/src/lib/geo.ts);
line numbers in doc comments refer to api.ts.

Modelling conventions:
* TypeScript numbers that hold counts (beds, victims, slots) are Nat; the spec
  (section 7) declares negative counts out of scope for the engine.
* Coordinates are rationals.  haversineKm (geo.ts lines 4-21) is floating-point
  trigonometry; every claim uses distance only as a ranking key, so the engine
  definitions take the distance function as an explicit parameter instead of
  fixing one numeric formula.  All theorems hold for every distance function.
* getRequiredServicesForCase (api.ts lines 197-215) is regular-expression text
  mining whose output feeds the engine as an opaque list of capability keys; no
  claim constrains its content, so it is likewise a parameter of the engine.
* A JS Map with string keys is modelled as an association list in key-insertion
  order (Map.prototype.set updates an existing key in place and appends new keys
  at the end); JS Array.prototype.sort with a comparator is modelled as a stable
  insertion sort (ECMAScript requires sort stability), see jsSortLe below,
  together with lemmas showing the model is sorted, stable and a permutation.
* timeOfReport is an ISO-8601 timestamp string ordered lexicographically, which
  coincides with chronological order; it is modelled as a Nat time stamp.
-/

namespace Api

/-- Severity levels of a case (api.ts line 12). -/
inductive SeverityLevel
  | critical
  | severe
  | moderate
  | mild
deriving DecidableEq

/-- severityOrder ranking used by the engine (api.ts lines 293-298 and 531):
critical 0, severe 1, moderate 2, mild 3. -/
def severityOrder : SeverityLevel → Nat
  | .critical => 0
  | .severe => 1
  | .moderate => 2
  | .mild => 3

/-- The ten boolean capability keys of a hospital (api.ts lines 142-152). -/
inductive HospitalServiceKey
  | traumaUnit
  | cardiology
  | pediatrics
  | neurosurgery
  | radiology
  | laboratory
  | pharmacy
  | burnUnit
  | orthopedics
  | ophthalmology
deriving DecidableEq

/-- A bed pool with available and total counts (api.ts lines 52-54). -/
structure BedPool where
  available : Nat
  total : Nat
deriving DecidableEq

/-- Hospital record (api.ts lines 47-67). -/
structure Hospital where
  id : String
  name : String
  latitude : ℚ
  longitude : ℚ
  emergencyBeds : BedPool
  icuBeds : BedPool
  pediatricsBeds : BedPool
  labAvailable : Nat
  pharmacyAvailable : Nat
  traumaUnit : Bool
  cardiology : Bool
  pediatrics : Bool
  neurosurgery : Bool
  radiology : Bool
  laboratory : Bool
  pharmacy : Bool
  burnUnit : Bool
  orthopedics : Bool
  ophthalmology : Bool
deriving DecidableEq

/-- Dynamic capability lookup h[key] on a hospital record. -/
def serviceOf (h : Hospital) : HospitalServiceKey → Bool
  | .traumaUnit => h.traumaUnit
  | .cardiology => h.cardiology
  | .pediatrics => h.pediatrics
  | .neurosurgery => h.neurosurgery
  | .radiology => h.radiology
  | .laboratory => h.laboratory
  | .pharmacy => h.pharmacy
  | .burnUnit => h.burnUnit
  | .orthopedics => h.orthopedics
  | .ophthalmology => h.ophthalmology

/-- Emergency case record (api.ts lines 25-45).  Fields that no embedded
function reads (caller phone, victim name, per-patient records, pain score,
ambulance status, consciousness/breathing text) are omitted; the free-text
symptom fields feed only the abstracted requirement inference. -/
structure EmergencyCase where
  id : String
  timeOfReport : Nat
  latitude : ℚ
  longitude : ℚ
  placeName : String
  numberOfPatients : Nat
  severity : SeverityLevel
  signsAndSymptoms : List String
  traumaHistory : String
  knownChronicDiseases : List String
  assignedHospital : Option String
deriving DecidableEq

/-- Map.prototype.set: update an existing key in place, append a new key. -/
def mapSet {α : Type} : List (String × α) → String → α → List (String × α)
  | [], k, v => [(k, v)]
  | (p, w) :: rest, k, v =>
      if p = k then (k, v) :: rest else (p, w) :: mapSet rest k v

/-- Map.prototype.get, returning an Option. -/
def mapGet? {α : Type} : List (String × α) → String → Option α
  | [], _ => none
  | (p, w) :: rest, k => if p = k then some w else mapGet? rest k

/-- map.get(k) ?? d. -/
def mapGetD {α : Type} (m : List (String × α)) (k : String) (d : α) : α :=
  (mapGet? m k).getD d

/-- Insert x in front of the first element y with le x y; elements the
comparator ties are kept in their original relative order. -/
def insertS {α : Type} (le : α → α → Bool) (x : α) : List α → List α
  | [] => [x]
  | y :: ys => if le x y then x :: y :: ys else y :: insertS le x ys

/-- Stable sort with respect to a boolean total preorder: the model of JS
Array.prototype.sort (which ECMAScript guarantees to be stable). -/
def jsSortLe {α : Type} (le : α → α → Bool) : List α → List α
  | [] => []
  | x :: xs => insertS le x (jsSortLe le xs)

/-- LAB_PHARMACY_MAX (api.ts line 93). -/
def LAB_PHARMACY_MAX : ℚ := 10

/-- Used fraction of a lab/pharmacy slot pool:
Math.min(1, 1 - available / LAB_PHARMACY_MAX) (api.ts lines 111-112). -/
def slotUsedFraction (available : Nat) : ℚ :=
  min 1 (1 - (available : ℚ) / LAB_PHARMACY_MAX)

/-- Used fraction of a bed pool: (total - available) / total, 0 when total is 0
(api.ts lines 101-110). -/
def bedUsedFraction (p : BedPool) : ℚ :=
  if 0 < p.total then ((p.total : ℚ) - (p.available : ℚ)) / (p.total : ℚ) else 0

/-- Math.round: round half away from zero toward positive infinity. -/
def jsRound (x : ℚ) : ℤ := ⌊x + 1 / 2⌋

/-- computeOccupancyPercentage (api.ts lines 100-121). -/
def computeOccupancyPercentage (h : Hospital) : ℤ :=
  let weighted :=
    bedUsedFraction h.emergencyBeds * (35 / 100) +
    bedUsedFraction h.icuBeds * (25 / 100) +
    bedUsedFraction h.pediatricsBeds * (2 / 10) +
    slotUsedFraction h.labAvailable * (1 / 10) +
    slotUsedFraction h.pharmacyAvailable * (1 / 10)
  jsRound (min 100 (max 0 (weighted * 100)))

/-- SERVICE_KEYS_ORDER, the fixed canonical capability order (api.ts 155-166). -/
def SERVICE_KEYS_ORDER : List HospitalServiceKey :=
  [.traumaUnit, .cardiology, .pediatrics, .neurosurgery, .radiology,
   .laboratory, .pharmacy, .burnUnit, .orthopedics, .ophthalmology]

/-- Count of capabilities the hospital offers (api.ts line 179). -/
def offeredCount (h : Hospital) : Nat :=
  (SERVICE_KEYS_ORDER.filter (fun k => serviceOf h k)).length

/-- numOverloaded = Math.min(offeredCount, Math.floor(offeredCount * pct / 100))
(api.ts line 180). -/
def numOverloaded (h : Hospital) (occupancyPct : Nat) : Nat :=
  min (offeredCount h) (offeredCount h * occupancyPct / 100)

/-- The special-cased hospital check (api.ts line 181). -/
def isIbnTofailHospital (h : Hospital) : Bool :=
  h.id == "h2" || h.name == "Hôpital Ibn Tofail"

/-- Loop body of getEffectiveServiceAvailability (api.ts lines 182-192): walk
the canonical key order with the running overloadedSoFar counter. -/
def effAvailLoop (h : Hospital) (numOv : Nat) :
    List HospitalServiceKey → Nat → List (HospitalServiceKey × Bool)
  | [], _ => []
  | k :: ks, overloadedSoFar =>
      if serviceOf h k then
        let normallyAvailable := decide (numOv ≤ overloadedSoFar)
        let value :=
          if isIbnTofailHospital h &&
              (k == HospitalServiceKey.traumaUnit || k == HospitalServiceKey.cardiology)
          then true else normallyAvailable
        (k, value) :: effAvailLoop h numOv ks (overloadedSoFar + 1)
      else
        (k, false) :: effAvailLoop h numOv ks overloadedSoFar

/-- getEffectiveServiceAvailability (api.ts lines 174-194), as the list of
key/availability pairs in canonical key order. -/
def getEffectiveServiceAvailability (h : Hospital) (occupancyPct : Nat) :
    List (HospitalServiceKey × Bool) :=
  effAvailLoop h (numOverloaded h occupancyPct) SERVICE_KEYS_ORDER 0

/-- requiredServices.every((key) => h[key] === true) (api.ts 226-227, 264-265). -/
def hasServices (requiredServices : List HospitalServiceKey) (h : Hospital) : Bool :=
  requiredServices.all (fun key => serviceOf h key)

/-- Model of the ranking sort over a copy of the hospital list, with the
comparator haversineKm(group, a) - haversineKm(group, b)
(api.ts lines 228-232 and 266-270). -/
def sortByDistance (dist : ℚ → ℚ → ℚ → ℚ → ℚ) (lat lng : ℚ)
    (hospitals : List Hospital) : List Hospital :=
  jsSortLe
    (fun a b =>
      decide (dist lat lng a.latitude a.longitude -
        dist lat lng b.latitude b.longitude ≤ 0))
    hospitals

/-- Ledger-adjusted capacity test of the batch assigner (api.ts 235-237 and
241-243): available = Math.max(0, emergencyBeds.available - used), then
available >= requiredBeds. -/
def capOk (usedCapacity : List (String × Nat)) (requiredBeds : Nat)
    (h : Hospital) : Bool :=
  let used := mapGetD usedCapacity h.name 0
  let available : ℤ := max 0 ((h.emergencyBeds.available : ℤ) - (used : ℤ))
  decide ((requiredBeds : ℤ) ≤ available)

/-- findNearestHospitalWithCapacityAndServices (api.ts lines 218-250). -/
def findNearestHospitalWithCapacityAndServices (dist : ℚ → ℚ → ℚ → ℚ → ℚ)
    (lat lng : ℚ) (hospitals : List Hospital)
    (usedCapacity : List (String × Nat)) (requiredBeds : Nat)
    (requiredServices : List HospitalServiceKey) : Option Hospital :=
  let byDist := sortByDistance dist lat lng hospitals
  match byDist.find?
      (fun h => capOk usedCapacity requiredBeds h && hasServices requiredServices h) with
  | some h => some h
  | none =>
      match byDist.find? (fun h => capOk usedCapacity requiredBeds h) with
      | some h => some h
      | none =>
          match byDist.find? (fun h => hasServices requiredServices h) with
          | some h => some h
          | none => byDist.head?

/-- Scan of findBackupHospital (api.ts lines 271-276): skip the excluded name,
return the first hospital with raw capacity and all required services. -/
def backupScan (excludeHospitalName : Option String) (requiredBeds : Nat)
    (requiredServices : List HospitalServiceKey) : List Hospital → Option Hospital
  | [] => none
  | h :: rest =>
      if some h.name == excludeHospitalName then
        backupScan excludeHospitalName requiredBeds requiredServices rest
      else if decide (requiredBeds ≤ h.emergencyBeds.available) &&
          hasServices requiredServices h then
        some h
      else
        backupScan excludeHospitalName requiredBeds requiredServices rest

/-- findBackupHospital (api.ts lines 256-277). -/
def findBackupHospital (dist : ℚ → ℚ → ℚ → ℚ → ℚ) (lat lng : ℚ)
    (hospitals : List Hospital) (excludeHospitalName : Option String)
    (requiredBeds : Nat) (requiredServices : List HospitalServiceKey) :
    Option Hospital :=
  backupScan excludeHospitalName requiredBeds requiredServices
    (sortByDistance dist lat lng hospitals)

/-- The byPlace grouping map (api.ts lines 286-291): fold the case list into a
JS Map from place name to the member cases in input order. -/
def byPlace (cases : List EmergencyCase) : List (String × List EmergencyCase) :=
  cases.foldl
    (fun m c => mapSet m c.placeName (mapGetD m c.placeName [] ++ [c])) []

/-- A derived place group (api.ts lines 299-319). -/
structure PlaceGroup where
  placeName : String
  lat : ℚ
  lng : ℚ
  caseList : List EmergencyCase
  totalVictims : Nat
  requiredServices : List HospitalServiceKey
deriving DecidableEq

/-- Set.add on the union of required services: appends unseen keys, in first
occurrence order (api.ts lines 305-307). -/
def addServiceKey (acc : List HospitalServiceKey) (k : HospitalServiceKey) :
    List HospitalServiceKey :=
  if k ∈ acc then acc else acc ++ [k]

/-- Union of inferred required services over the member cases (api.ts 305-307). -/
def unionRequiredServices (reqServices : EmergencyCase → List HospitalServiceKey)
    (caseList : List EmergencyCase) : List HospitalServiceKey :=
  caseList.foldl (fun acc c => (reqServices c).foldl addServiceKey acc) []

/-- The member sort comparator (api.ts lines 308-310):
severityOrder[a.severity] - severityOrder[b.severity], as the induced boolean
relation of the stable sort model. -/
def severityCmpLe (a b : EmergencyCase) : Bool :=
  decide ((severityOrder a.severity : ℤ) - (severityOrder b.severity : ℤ) ≤ 0)

/-- Construction of one place group from a byPlace entry (api.ts lines 299-319). -/
def mkPlaceGroup (reqServices : EmergencyCase → List HospitalServiceKey)
    (placeName : String) (caseList : List EmergencyCase) : PlaceGroup where
  placeName := placeName
  lat := caseList.foldl (fun s c => s + c.latitude) 0 / (caseList.length : ℚ)
  lng := caseList.foldl (fun s c => s + c.longitude) 0 / (caseList.length : ℚ)
  caseList := jsSortLe severityCmpLe caseList
  totalVictims := caseList.foldl (fun s c => s + c.numberOfPatients) 0
  requiredServices := unionRequiredServices reqServices caseList

/-- The unsorted list of place groups in key-insertion order (api.ts line 299). -/
def rawPlaceGroups (reqServices : EmergencyCase → List HospitalServiceKey)
    (cases : List EmergencyCase) : List PlaceGroup :=
  (byPlace cases).map (fun e => mkPlaceGroup reqServices e.1 e.2)

/-- Math.min over the member severity ranks (api.ts lines 323-324). Groups built
by byPlace are never empty, so the fold base 4 (above every rank) is inert. -/
def minSevRank (cs : List EmergencyCase) : Nat :=
  (cs.map (fun c => severityOrder c.severity)).foldr min 4

/-- The group priority comparator (api.ts lines 321-328), as the induced boolean
relation of the stable sort model. -/
def groupCmpLe (a b : PlaceGroup) : Bool :=
  let worstA := minSevRank a.caseList
  let worstB := minSevRank b.caseList
  decide
    ((if worstA ≠ worstB then (worstA : ℤ) - (worstB : ℤ)
      else (b.totalVictims : ℤ) - (a.totalVictims : ℤ)) ≤ 0)

/-- The engine's processing order over groups: placeGroups.sort(...) at
api.ts lines 321-328. -/
def orderedPlaceGroups (reqServices : EmergencyCase → List HospitalServiceKey)
    (cases : List EmergencyCase) : List PlaceGroup :=
  jsSortLe groupCmpLe (rawPlaceGroups reqServices cases)

/-- One iteration of the assignment loop (api.ts lines 333-347), acting on the
pair (usedCapacity ledger, placeToHospital map). -/
def assignStep (dist : ℚ → ℚ → ℚ → ℚ → ℚ) (hospitals : List Hospital)
    (st : List (String × Nat) × List (String × String)) (g : PlaceGroup) :
    List (String × Nat) × List (String × String) :=
  match findNearestHospitalWithCapacityAndServices dist g.lat g.lng hospitals
      st.1 g.totalVictims g.requiredServices with
  | some assigned =>
      (mapSet st.1 assigned.name (mapGetD st.1 assigned.name 0 + g.totalVictims),
       mapSet st.2 g.placeName assigned.name)
  | none => st

/-- The full assignment loop over the ordered groups (api.ts lines 330-347). -/
def runPass (dist : ℚ → ℚ → ℚ → ℚ → ℚ) (hospitals : List Hospital)
    (groups : List PlaceGroup)
    (st : List (String × Nat) × List (String × String)) :
    List (String × Nat) × List (String × String) :=
  groups.foldl (assignStep dist hospitals) st

/-- assignCasesToHospitals (api.ts lines 280-353).  Both the usedCapacity ledger
and the placeToHospital map start empty on every invocation, mirroring the two
local "new Map()" constructions at api.ts lines 330-331. -/
def assignCasesToHospitals (dist : ℚ → ℚ → ℚ → ℚ → ℚ)
    (reqServices : EmergencyCase → List HospitalServiceKey)
    (cases : List EmergencyCase) (hospitals : List Hospital) :
    List EmergencyCase :=
  if hospitals.length = 0 then
    cases.map (fun c => { c with assignedHospital := none })
  else
    let st := runPass dist hospitals (orderedPlaceGroups reqServices cases) ([], [])
    cases.map (fun c => { c with assignedHospital := mapGet? st.2 c.placeName })

/-- CHU Mohammed VI (api.ts lines 479-485). -/
def hospitalCHU : Hospital where
  id := "h1"
  name := "CHU Mohammed VI"
  latitude := 31.6340
  longitude := -8.0150
  emergencyBeds := ⟨3, 30⟩
  icuBeds := ⟨1, 12⟩
  pediatricsBeds := ⟨2, 8⟩
  labAvailable := 4
  pharmacyAvailable := 2
  traumaUnit := true
  cardiology := true
  pediatrics := true
  neurosurgery := true
  radiology := true
  laboratory := true
  pharmacy := true
  burnUnit := true
  orthopedics := true
  ophthalmology := true

/-- Hôpital Ibn Tofail (api.ts lines 486-492). -/
def hospitalIbnTofail : Hospital where
  id := "h2"
  name := "Hôpital Ibn Tofail"
  latitude := 31.6280
  longitude := -7.9920
  emergencyBeds := ⟨8, 25⟩
  icuBeds := ⟨3, 8⟩
  pediatricsBeds := ⟨4, 10⟩
  labAvailable := 3
  pharmacyAvailable := 2
  traumaUnit := true
  cardiology := true
  pediatrics := true
  neurosurgery := false
  radiology := true
  laboratory := true
  pharmacy := true
  burnUnit := false
  orthopedics := true
  ophthalmology := false

/-- Concrete distance stand-in: squared Euclidean distance in coordinate space
(any distance function works for every theorem below; this one is computable). -/
def sqDist (lat1 lng1 lat2 lng2 : ℚ) : ℚ :=
  (lat2 - lat1) * (lat2 - lat1) + (lng2 - lng1) * (lng2 - lng1)

/-- Concrete requirement-inference stand-in inferring no required services. -/
def noRequired : EmergencyCase → List HospitalServiceKey := fun _ => []

/-- A concrete case template. -/
def caseAt (i : String) (place : String) (t : Nat) (sev : SeverityLevel)
    (victims : Nat) : EmergencyCase where
  id := i
  timeOfReport := t
  latitude := 31
  longitude := -8
  placeName := place
  numberOfPatients := victims
  severity := sev
  signsAndSymptoms := []
  traumaHistory := "Trauma"
  knownChronicDiseases := []
  assignedHospital := none

/-- Spec 4.5: "stopping at the first hospital satisfying a tier's predicate". -/
def firstSatisfying {α : Type} (p : α → Bool) : List α → Option α
  | [] => none
  | x :: xs => if p x then some x else firstSatisfying p xs

/-- Spec 4.5 tier 1: ledger-adjusted available beds (clamped at zero, which
natural subtraction gives) at least the victim count, and every required
capability offered. -/
def specTier1 (ledger : List (String × Nat)) (victims : Nat)
    (required : List HospitalServiceKey) (h : Hospital) : Bool :=
  decide (victims ≤ h.emergencyBeds.available - mapGetD ledger h.name 0) &&
    required.all (fun k => serviceOf h k)

/-- Spec 4.5 tier 2: ledger-adjusted available beds at least the victim count,
capabilities ignored. -/
def specTier2 (ledger : List (String × Nat)) (victims : Nat) (h : Hospital) :
    Bool :=
  decide (victims ≤ h.emergencyBeds.available - mapGetD ledger h.name 0)

/-- Spec 4.5 tier 3: every required capability offered, capacity ignored. -/
def specTier3 (required : List HospitalServiceKey) (h : Hospital) : Bool :=
  required.all (fun k => serviceOf h k)

/-- Spec 4.5 selection: rank all hospitals by distance from the centroid
(ascending, stable), then take the first tier-1 hospital, else the first
tier-2 hospital, else the first tier-3 hospital, else the nearest of all. -/
def specSelectHospital (dist : ℚ → ℚ → ℚ → ℚ → ℚ) (lat lng : ℚ)
    (hospitals : List Hospital) (ledger : List (String × Nat)) (victims : Nat)
    (required : List HospitalServiceKey) : Option Hospital :=
  let ranked := sortByDistance dist lat lng hospitals
  match firstSatisfying (specTier1 ledger victims required) ranked with
  | some h => some h
  | none =>
      match firstSatisfying (specTier2 ledger victims) ranked with
      | some h => some h
      | none =>
          match firstSatisfying (specTier3 required) ranked with
          | some h => some h
          | none => ranked.head?

/-- Spec 4.6: among hospitals other than the excluded name, ranked by distance,
the first whose raw available beds reach requiredBeds and which offers every
required capability. -/
def specBackup (dist : ℚ → ℚ → ℚ → ℚ → ℚ) (lat lng : ℚ)
    (hospitals : List Hospital) (excludeName : Option String)
    (requiredBeds : Nat) (required : List HospitalServiceKey) :
    Option Hospital :=
  ((sortByDistance dist lat lng hospitals).filter
      (fun h => !(some h.name == excludeName))).find?
    (fun h =>
      decide (requiredBeds ≤ h.emergencyBeds.available) &&
        hasServices required h)

/-- Spec 4.7 effectiveAvailability: an unoffered capability is unavailable;
among offered capabilities counted in canonical order, exactly the first
floor(offeredCount * pct / 100) are unavailable, the rest available. -/
def effAvailSpec (h : Hospital) (occupancyPct : Nat) :
    List (HospitalServiceKey × Bool) :=
  let offered := SERVICE_KEYS_ORDER.filter (fun k => serviceOf h k)
  SERVICE_KEYS_ORDER.map (fun k =>
    (k, serviceOf h k &&
      decide (offered.length * occupancyPct / 100 ≤ offered.indexOf k)))

/-- Spec 4.4 priority order: minimum member severity rank ascending, then total
victim count descending; the stable sort keeps input order on full ties. -/
def prioritySpecLe (a b : PlaceGroup) : Bool :=
  decide (minSevRank a.caseList < minSevRank b.caseList ∨
    (minSevRank a.caseList = minSevRank b.caseList ∧
      b.totalVictims ≤ a.totalVictims))

/-- Spec 4.3 member order claim: ascending severity rank, ties broken by
arrival/report time ascending. -/
def specMemberOrder (a b : EmergencyCase) : Prop :=
  severityOrder a.severity < severityOrder b.severity ∨
    (severityOrder a.severity = severityOrder b.severity ∧
      a.timeOfReport ≤ b.timeOfReport)

instance : DecidableRel specMemberOrder := fun a b => by
  unfold specMemberOrder
  infer_instance

/-- Replace exactly the resources the capacity predicates never read: ICU beds,
pediatric beds, lab slots, pharmacy slots.  Identity, position, emergency beds
and all capability flags are untouched. -/
def setAuxiliaryResources (h : Hospital) (icu peds : BedPool) (lab pharm : Nat) :
    Hospital :=
  { h with
    icuBeds := icu
    pediatricsBeds := peds
    labAvailable := lab
    pharmacyAvailable := pharm }

/-- The two cases of the C6 counterexample: equal severity, but the later
report is listed first. -/
def caseLate : EmergencyCase := caseAt "A" "P" 10 SeverityLevel.moderate 1

def caseEarly : EmergencyCase := caseAt "B" "P" 9 SeverityLevel.moderate 1

/-- The ledger evolution of the assignment loop (api.ts lines 333-347),
projected away from the placeToHospital map. -/
def ledgerAfter (dist : ℚ → ℚ → ℚ → ℚ → ℚ) (hospitals : List Hospital) :
    List (String × Nat) → List PlaceGroup → List (String × Nat)
  | led, [] => led
  | led, g :: gs =>
      match findNearestHospitalWithCapacityAndServices dist g.lat g.lng
          hospitals led g.totalVictims g.requiredServices with
      | some h =>
          ledgerAfter dist hospitals
            (mapSet led h.name (mapGetD led h.name 0 + g.totalVictims)) gs
      | none => ledgerAfter dist hospitals led gs

/-- The trace of (group, assigned hospital name) pairs produced by the pass. -/
def passAssignments (dist : ℚ → ℚ → ℚ → ℚ → ℚ) (hospitals : List Hospital) :
    List (String × Nat) → List PlaceGroup → List (PlaceGroup × String)
  | _, [] => []
  | led, g :: gs =>
      match findNearestHospitalWithCapacityAndServices dist g.lat g.lng
          hospitals led g.totalVictims g.requiredServices with
      | some h =>
          (g, h.name) ::
            passAssignments dist hospitals
              (mapSet led h.name (mapGetD led h.name 0 + g.totalVictims)) gs
      | none => passAssignments dist hospitals led gs

/-- Two sequential invocations of the engine on the same inputs.  Each
invocation constructs its own ledger and place map from empty (the two local
"new Map()" at api.ts lines 330-331 — see assignCasesToHospitals, whose loop
starts from the empty pair on every call); no state flows between the calls. -/
def invokeEngineTwice (dist : ℚ → ℚ → ℚ → ℚ → ℚ)
    (reqServices : EmergencyCase → List HospitalServiceKey)
    (cases : List EmergencyCase) (hospitals : List Hospital) :
    List EmergencyCase × List EmergencyCase :=
  (assignCasesToHospitals dist reqServices cases hospitals,
   assignCasesToHospitals dist reqServices cases hospitals)

/-! ### Lemmas and claim theorems -/

theorem mapGet?_mapSet {α : Type} (m : List (String × α)) (k q : String) (v : α) :
    mapGet? (mapSet m k v) q = if q = k then some v else mapGet? m q := by
  induction m with
  | nil =>
      simp only [mapSet, mapGet?]
      by_cases h : k = q
      · subst h; simp
      · rw [if_neg h, if_neg (fun hc : q = k => h hc.symm)]
  | cons e rest ih =>
      obtain ⟨p, w⟩ := e
      by_cases hp : p = k
      · subst hp
        simp only [mapSet, if_pos rfl, mapGet?]
        by_cases h : p = q
        · subst h; simp
        · rw [if_neg h, if_neg (fun hc : q = p => h hc.symm), if_neg h]
      · simp only [mapSet, if_neg hp, mapGet?]
        by_cases h : p = q
        · subst h
          rw [if_pos rfl, if_neg hp, if_pos rfl]
        · rw [if_neg h, ih]
          by_cases hqk : q = k
          · rw [if_pos hqk, if_pos hqk]
          · rw [if_neg hqk, if_neg hqk, if_neg h]

theorem mapGetD_mapSet {α : Type} (m : List (String × α)) (k q : String) (v : α) (d : α) :
    mapGetD (mapSet m k v) q d = if q = k then v else mapGetD m q d := by
  by_cases h : q = k <;> simp [mapGetD, mapGet?_mapSet, h]

theorem mapGet?_isSome_mapSet {α : Type} (m : List (String × α)) (k q : String) (v : α)
    (h : (mapGet? m q).isSome) : (mapGet? (mapSet m k v) q).isSome := by
  rw [mapGet?_mapSet]
  by_cases hq : q = k <;> simp [hq, h]

/-- A key with a stored value occurs in the key list of the map. -/
theorem mem_keys_of_mapGet?_isSome {α : Type} (m : List (String × α)) (q : String)
    (h : (mapGet? m q).isSome) : q ∈ m.map Prod.fst := by
  induction m with
  | nil => simp [mapGet?] at h
  | cons e rest ih =>
      obtain ⟨p, w⟩ := e
      by_cases hp : p = q
      · simp [hp]
      · simp only [mapGet?, if_neg hp] at h
        simpa using Or.inr (ih h)

theorem perm_insertS {α : Type} (le : α → α → Bool) (x : α) (l : List α) :
    List.Perm (insertS le x l) (x :: l) := by
  induction l with
  | nil => simp [insertS]
  | cons y ys ih =>
      by_cases h : le x y
      · simp [insertS, h]
      · simp only [insertS, h, Bool.false_eq_true, if_false]
        exact (ih.cons y).trans (List.Perm.swap x y ys)

theorem perm_jsSortLe {α : Type} (le : α → α → Bool) (l : List α) :
    List.Perm (jsSortLe le l) l := by
  induction l with
  | nil => simp [jsSortLe]
  | cons x xs ih => exact (perm_insertS le x (jsSortLe le xs)).trans (ih.cons x)

theorem mem_jsSortLe {α : Type} (le : α → α → Bool) (l : List α) (a : α) :
    a ∈ jsSortLe le l ↔ a ∈ l :=
  (perm_jsSortLe le l).mem_iff

theorem length_jsSortLe {α : Type} (le : α → α → Bool) (l : List α) :
    (jsSortLe le l).length = l.length :=
  (perm_jsSortLe le l).length_eq

theorem jsSortLe_ne_nil {α : Type} (le : α → α → Bool) (l : List α) (h : l ≠ []) :
    jsSortLe le l ≠ [] := by
  intro hc
  apply h
  have := length_jsSortLe le l
  rw [hc] at this
  exact List.length_eq_zero.mp this.symm

theorem mem_insertS {α : Type} (le : α → α → Bool) (x a : α) (l : List α) :
    a ∈ insertS le x l ↔ a = x ∨ a ∈ l := by
  have := (perm_insertS le x l).mem_iff (a := a)
  simpa using this

/-- The sorted output is pairwise ordered by the comparator, provided the
comparator is total and transitive. -/
theorem pairwise_insertS {α : Type} (le : α → α → Bool)
    (htot : ∀ a b, le a b = true ∨ le b a = true)
    (htrans : ∀ a b c, le a b = true → le b c = true → le a c = true)
    (x : α) (l : List α) (h : l.Pairwise (fun a b => le a b = true)) :
    (insertS le x l).Pairwise (fun a b => le a b = true) := by
  induction l with
  | nil => simp [insertS]
  | cons y ys ih =>
      rw [List.pairwise_cons] at h
      obtain ⟨hy, hys⟩ := h
      by_cases hxy : le x y
      · simp only [insertS, hxy, if_true]
        refine List.Pairwise.cons ?_ (List.Pairwise.cons hy hys)
        intro z hz
        rcases List.mem_cons.mp hz with rfl | hz
        · exact hxy
        · exact htrans x y z hxy (hy z hz)
      · have hyx : le y x = true := by
          rcases htot x y with h1 | h1
          · exact absurd h1 hxy
          · exact h1
        simp only [insertS, hxy, Bool.false_eq_true, if_false]
        refine List.Pairwise.cons ?_ (ih hys)
        intro z hz
        rcases (mem_insertS le x z ys).mp hz with rfl | hz
        · exact hyx
        · exact hy z hz

theorem pairwise_jsSortLe {α : Type} (le : α → α → Bool)
    (htot : ∀ a b, le a b = true ∨ le b a = true)
    (htrans : ∀ a b c, le a b = true → le b c = true → le a c = true)
    (l : List α) :
    (jsSortLe le l).Pairwise (fun a b => le a b = true) := by
  induction l with
  | nil => simp [jsSortLe]
  | cons x xs ih => exact pairwise_insertS le htot htrans x (jsSortLe le xs) ih

/-- Inserting an element the filter rejects does not change the filtered list. -/
theorem filter_insertS_neg {α : Type} (le : α → α → Bool) (p : α → Bool) (x : α)
    (l : List α) (hx : p x = false) :
    (insertS le x l).filter p = l.filter p := by
  induction l with
  | nil => simp [insertS, hx]
  | cons y ys ih =>
      by_cases h : le x y
      · simp [insertS, h, List.filter_cons, hx]
      · simp only [insertS, h, Bool.false_eq_true, if_false, List.filter_cons]
        cases hy : p y <;> simp [ih]

/-- Inserting an element the filter accepts, when the comparator puts it no
later than every accepted element, prepends it to the filtered list. -/
theorem filter_insertS_pos {α : Type} (le : α → α → Bool) (p : α → Bool) (x : α)
    (l : List α) (hx : p x = true) (hall : ∀ y ∈ l, p y = true → le x y = true) :
    (insertS le x l).filter p = x :: l.filter p := by
  induction l with
  | nil => simp [insertS, hx]
  | cons y ys ih =>
      by_cases h : le x y
      · simp [insertS, h, List.filter_cons, hx]
      · have hy : p y = false := by
          cases hpy : p y
          · rfl
          · exact absurd (hall y (by simp) hpy) h
        simp only [insertS, h, Bool.false_eq_true, if_false, List.filter_cons, hy,
          if_false]
        exact ih (fun z hz hpz => hall z (List.mem_cons_of_mem y hz) hpz)

/-- Stability of the sort model: the elements of any comparator tie-class keep
their original relative order in the output. -/
theorem filter_jsSortLe {α : Type} (le : α → α → Bool) (p : α → Bool) (l : List α)
    (hcl : ∀ a b, p a = true → p b = true → le a b = true) :
    (jsSortLe le l).filter p = l.filter p := by
  induction l with
  | nil => simp [jsSortLe]
  | cons x xs ih =>
      cases hx : p x
      · rw [jsSortLe, filter_insertS_neg le p x _ hx, ih, List.filter_cons, hx]
        simp
      · rw [jsSortLe,
          filter_insertS_pos le p x _ hx (fun y _ hpy => hcl x y hx hpy), ih,
          List.filter_cons, hx]
        simp

/-- insertS commutes with mapping a function that preserves the comparator. -/
theorem insertS_map {α : Type} (le le₂ : α → α → Bool) (g : α → α)
    (hg : ∀ a b, le₂ (g a) (g b) = le a b) (x : α) (l : List α) :
    insertS le₂ (g x) (l.map g) = (insertS le x l).map g := by
  induction l with
  | nil => simp [insertS]
  | cons y ys ih =>
      simp only [List.map_cons, insertS, hg]
      cases h : le x y <;> simp [h, ih]

/-- The sort model commutes with mapping a comparator-preserving function. -/
theorem jsSortLe_map {α : Type} (le le₂ : α → α → Bool) (g : α → α)
    (hg : ∀ a b, le₂ (g a) (g b) = le a b) (l : List α) :
    jsSortLe le₂ (l.map g) = (jsSortLe le l).map g := by
  induction l with
  | nil => simp [jsSortLe]
  | cons x xs ih =>
      rw [List.map_cons, jsSortLe, jsSortLe, ih, insertS_map le le₂ g hg]

theorem effAvailLoop_eq_spec (h : Hospital) (m : Nat)
    (hh : isIbnTofailHospital h = false) :
    ∀ (ks : List HospitalServiceKey) (c : Nat), ks.Nodup →
      effAvailLoop h m ks c = ks.map (fun k =>
        (k, serviceOf h k &&
          decide (m ≤ c + (ks.filter (fun x => serviceOf h x)).indexOf k))) := by
  intro ks
  induction ks with
  | nil => intro c _; simp [effAvailLoop]
  | cons q ks ih =>
      intro c hnd
      rw [List.nodup_cons] at hnd
      obtain ⟨hq, hnd⟩ := hnd
      cases hs : serviceOf h q with
      | false =>
          simp only [effAvailLoop, hs, Bool.false_eq_true, if_false,
            List.map_cons, List.filter_cons, Bool.false_and]
          exact congrArg₂ List.cons rfl (ih c hnd)
      | true =>
          simp only [effAvailLoop, hs, if_true, hh, Bool.false_and,
            Bool.false_eq_true, if_false, List.map_cons, List.filter_cons,
            if_true, List.indexOf_cons_self, Nat.add_zero, Bool.true_and]
          refine congrArg₂ List.cons rfl ?_
          rw [ih (c + 1) hnd]
          refine List.map_congr_left ?_
          intro k hk
          have hne : q ≠ k := fun hc => hq (hc ▸ hk)
          cases hk2 : serviceOf h k with
          | false => simp
          | true =>
              rw [List.indexOf_cons_ne _ hne]
              have harith :
                  c + ((ks.filter (fun x => serviceOf h x)).indexOf k + 1) =
                    c + 1 + (ks.filter (fun x => serviceOf h x)).indexOf k := by
                omega
              rw [harith]

theorem effAvailLoop_unoffered_false (h : Hospital) (m : Nat) :
    ∀ (ks : List HospitalServiceKey) (c : Nat),
      (effAvailLoop h m ks c).all (fun e => serviceOf h e.1 || !e.2) = true := by
  intro ks
  induction ks with
  | nil => intro c; simp [effAvailLoop]
  | cons q ks ih =>
      intro c
      cases hs : serviceOf h q <;> simp [effAvailLoop, hs, ih]

/-- At a hospital the special case of api.ts line 181 matches, every entry the
loop produces for an offered traumaUnit or cardiology is pinned to available,
whatever the overload count. -/
theorem effAvailLoop_ibnTofail_pinned (h : Hospital) (m : Nat)
    (hh : isIbnTofailHospital h = true) :
    ∀ (ks : List HospitalServiceKey) (c : Nat),
      (effAvailLoop h m ks c).all
        (fun e => !(serviceOf h e.1 &&
          (e.1 == HospitalServiceKey.traumaUnit ||
            e.1 == HospitalServiceKey.cardiology)) || e.2) = true := by
  intro ks
  induction ks with
  | nil => intro c; simp [effAvailLoop]
  | cons q ks ih =>
      intro c
      cases hs : serviceOf h q with
      | false =>
          have hstep : effAvailLoop h m (q :: ks) c =
              (q, false) :: effAvailLoop h m ks c := by
            simp [effAvailLoop, hs]
          rw [hstep, List.all_cons, Bool.and_eq_true]
          exact ⟨by simp [hs], ih c⟩
      | true =>
          have hstep : effAvailLoop h m (q :: ks) c =
              (q, if isIbnTofailHospital h &&
                    (q == HospitalServiceKey.traumaUnit ||
                      q == HospitalServiceKey.cardiology)
                  then true else decide (m ≤ c)) ::
                effAvailLoop h m ks (c + 1) := by
            simp [effAvailLoop, hs]
          rw [hstep, List.all_cons, Bool.and_eq_true]
          refine ⟨?_, ih (c + 1)⟩
          by_cases hq : (q == HospitalServiceKey.traumaUnit ||
              q == HospitalServiceKey.cardiology) = true
          · simp [hs, hq, hh]
          · have hq2 : (q == HospitalServiceKey.traumaUnit ||
                q == HospitalServiceKey.cardiology) = false := by
              cases hx : (q == HospitalServiceKey.traumaUnit ||
                  q == HospitalServiceKey.cardiology)
              · rfl
              · exact absurd hx hq
            simp [hs, hq2]

theorem numOverloaded_eq (h : Hospital) (p : Nat) (hp : p ≤ 100) :
    numOverloaded h p = offeredCount h * p / 100 := by
  unfold numOverloaded
  refine min_eq_right ?_
  calc offeredCount h * p / 100 ≤ offeredCount h * 100 / 100 :=
        Nat.div_le_div_right (Nat.mul_le_mul_left _ hp)
    _ = offeredCount h := Nat.mul_div_cancel _ (by norm_num)

/-- C3, counterexample: the claim fails at the statically registered
Hôpital Ibn Tofail with occupancy 100 percent — all ten offered-or-not
capabilities should rank as the spec says, but the special case at api.ts
line 181 pins an offered traumaUnit (and cardiology) to available. -/
theorem c3_counterexample :
    (100 : Nat) ≤ 100 ∧
    (getEffectiveServiceAvailability hospitalIbnTofail 100).head? =
      some (HospitalServiceKey.traumaUnit, true) ∧
    (effAvailSpec hospitalIbnTofail 100).head? =
      some (HospitalServiceKey.traumaUnit, false) ∧
    getEffectiveServiceAvailability hospitalIbnTofail 100 ≠
      effAvailSpec hospitalIbnTofail 100 := by
  refine ⟨by decide, by decide, by decide, by decide⟩

/-- C3, amended: for every hospital other than the special-cased Hôpital Ibn
Tofail (id h2), effectiveAvailability marks capabilities exactly as the spec
says for every occupancy percentage in [0, 100]; for every hospital (including
Ibn Tofail) no unoffered capability is ever marked available, at any occupancy;
and at an Ibn Tofail hospital every offered traumaUnit and cardiology entry is
marked available regardless of occupancy. -/
theorem c3_effective_availability_amended :
    ∀ (h : Hospital) (p : Nat),
      (p ≤ 100 → isIbnTofailHospital h = false →
        getEffectiveServiceAvailability h p = effAvailSpec h p) ∧
      (getEffectiveServiceAvailability h p).all
        (fun e => serviceOf h e.1 || !e.2) = true ∧
      (isIbnTofailHospital h = true →
        (getEffectiveServiceAvailability h p).all
          (fun e => !(serviceOf h e.1 &&
            (e.1 == HospitalServiceKey.traumaUnit ||
              e.1 == HospitalServiceKey.cardiology)) || e.2) = true) := by
  intro h p
  refine ⟨?_, ?_, ?_⟩
  · intro hp hh
    unfold getEffectiveServiceAvailability effAvailSpec
    rw [effAvailLoop_eq_spec h (numOverloaded h p) hh SERVICE_KEYS_ORDER 0
        (by decide), numOverloaded_eq h p hp]
    simp only [Nat.zero_add]
    rfl
  · exact effAvailLoop_unoffered_false h (numOverloaded h p) SERVICE_KEYS_ORDER 0
  · intro hh
    exact effAvailLoop_ibnTofail_pinned h (numOverloaded h p) hh
      SERVICE_KEYS_ORDER 0

/-- Witness for the amended C3 theorem: the spec rule at CHU Mohammed VI with
occupancy 50, and the pinned traumaUnit/cardiology entries at Hôpital Ibn
Tofail with occupancy 100. -/
theorem c3_effective_availability_amended_witness :
    ((50 : Nat) ≤ 100 ∧ isIbnTofailHospital hospitalCHU = false ∧
      getEffectiveServiceAvailability hospitalCHU 50 =
        effAvailSpec hospitalCHU 50) ∧
    (isIbnTofailHospital hospitalIbnTofail = true ∧
      (getEffectiveServiceAvailability hospitalIbnTofail 100).all
        (fun e => !(serviceOf hospitalIbnTofail e.1 &&
          (e.1 == HospitalServiceKey.traumaUnit ||
            e.1 == HospitalServiceKey.cardiology)) || e.2) = true) :=
  ⟨⟨by decide, by decide,
      (c3_effective_availability_amended hospitalCHU 50).1 (by decide)
        (by decide)⟩,
    ⟨by decide,
      (c3_effective_availability_amended hospitalIbnTofail 100).2.2
        (by decide)⟩⟩

/-- C7, counterexample: with 20 available lab slots the used fraction is
negative (the code clamps only from above at 1, api.ts line 111), so it is not
the value clamped to [0, 1] that the claim states. -/
theorem c7_counterexample :
    slotUsedFraction 20 < 0 ∧
    slotUsedFraction 20 ≠ max 0 (min 1 (1 - (20 : ℚ) / 10)) := by
  constructor <;> norm_num [slotUsedFraction, LAB_PHARMACY_MAX]

/-- C7, amended: the used fraction of a slot pool is clamped from above at 1
only.  It equals the claimed [0,1]-clamped value, and in particular is
nonnegative, exactly when available ≤ 10 (the assumed maximum): for every
available ≤ 10 the claim's equality and nonnegativity hold, and for every
available > 10 the fraction is negative and differs from the clamped value. -/
theorem c7_slot_fraction_amended :
    ∀ a : Nat,
      slotUsedFraction a ≤ 1 ∧
      (a ≤ 10 →
        slotUsedFraction a = max 0 (min 1 (1 - (a : ℚ) / 10)) ∧
        0 ≤ slotUsedFraction a) ∧
      (10 < a →
        slotUsedFraction a < 0 ∧
        slotUsedFraction a ≠ max 0 (min 1 (1 - (a : ℚ) / 10))) := by
  intro a
  refine ⟨min_le_left 1 _, ?_, ?_⟩
  · intro ha
    have haq : (a : ℚ) ≤ 10 := by exact_mod_cast ha
    have hdiv : (a : ℚ) / 10 ≤ 1 := (div_le_one (by norm_num)).mpr haq
    have hx0 : 0 ≤ 1 - (a : ℚ) / 10 := by linarith
    have hx1 : 1 - (a : ℚ) / 10 ≤ 1 := by linarith
    unfold slotUsedFraction LAB_PHARMACY_MAX
    rw [min_eq_right hx1]
    exact ⟨(max_eq_right hx0).symm, hx0⟩
  · intro ha
    have haq : (10 : ℚ) < (a : ℚ) := by exact_mod_cast ha
    have hdiv : 1 < (a : ℚ) / 10 := (one_lt_div (by norm_num)).mpr haq
    have hx : 1 - (a : ℚ) / 10 < 0 := by linarith
    have hval : slotUsedFraction a = 1 - (a : ℚ) / 10 := by
      unfold slotUsedFraction LAB_PHARMACY_MAX
      exact min_eq_right (by linarith)
    have hclamp : max 0 (min 1 (1 - (a : ℚ) / 10)) = 0 := by
      rw [min_eq_right (by linarith : 1 - (a : ℚ) / 10 ≤ 1)]
      exact max_eq_left (by linarith)
    refine ⟨hval ▸ hx, ?_⟩
    rw [hval, hclamp]
    exact ne_of_lt hx

/-- Witness for the amended C7 theorem on both sides of the assumed maximum:
5 available slots (claimed clamp holds) and 20 available slots (fraction
negative). -/
theorem c7_slot_fraction_amended_witness :
    ((5 : Nat) ≤ 10 ∧
      slotUsedFraction 5 = max 0 (min 1 (1 - (5 : ℚ) / 10))) ∧
    (10 < (20 : Nat) ∧ slotUsedFraction 20 < 0) :=
  ⟨⟨by norm_num, ((c7_slot_fraction_amended 5).2.1 (by norm_num)).1⟩,
    ⟨by norm_num, ((c7_slot_fraction_amended 20).2.2 (by norm_num)).1⟩⟩

theorem firstSatisfying_eq_find? {α : Type} (p : α → Bool) (l : List α) :
    firstSatisfying p l = l.find? p := by
  induction l with
  | nil => rfl
  | cons x xs ih => cases h : p x <;> simp [firstSatisfying, List.find?_cons, h, ih]

theorem capOk_eq_specTier2 (u : List (String × Nat)) (r : Nat) (h : Hospital) :
    capOk u r h = specTier2 u r h := by
  unfold capOk specTier2
  exact decide_eq_decide.mpr (by omega)

/-- C1: the hospital chosen for a group is exactly the spec's four-tier
selection over the distance-ranked hospital list — tier 1 (ledger-adjusted
capacity and full capability match), else tier 2 (capacity only), else tier 3
(capabilities only), else the nearest hospital of all. -/
theorem c1_tiered_selection :
    ∀ (dist : ℚ → ℚ → ℚ → ℚ → ℚ) (lat lng : ℚ) (hospitals : List Hospital)
      (usedCapacity : List (String × Nat)) (requiredBeds : Nat)
      (required : List HospitalServiceKey),
      findNearestHospitalWithCapacityAndServices dist lat lng hospitals
          usedCapacity requiredBeds required =
        specSelectHospital dist lat lng hospitals usedCapacity requiredBeds
          required := by
  intro dist lat lng hospitals u r req
  unfold findNearestHospitalWithCapacityAndServices specSelectHospital
  have e1 : specTier1 u r req = fun h => capOk u r h && hasServices req h := by
    funext h
    unfold specTier1 hasServices
    rw [capOk_eq_specTier2]
    rfl
  have e2 : specTier2 u r = fun h => capOk u r h := by
    funext h
    rw [capOk_eq_specTier2]
  have e3 : specTier3 req = fun h => hasServices req h := rfl
  simp only [firstSatisfying_eq_find?, e1, e2, e3]

theorem backupScan_eq (excl : Option String) (r : Nat)
    (req : List HospitalServiceKey) (l : List Hospital) :
    backupScan excl r req l =
      (l.filter (fun h => !(some h.name == excl))).find?
        (fun h => decide (r ≤ h.emergencyBeds.available) && hasServices req h) := by
  induction l with
  | nil => rfl
  | cons h t ih =>
      by_cases he : (some h.name == excl) = true
      · simp [backupScan, he, List.filter_cons, ih]
      · have he2 : (some h.name == excl) = false := by
          cases hx : (some h.name == excl)
          · rfl
          · exact absurd hx he
        by_cases hp : (decide (r ≤ h.emergencyBeds.available) &&
            hasServices req h) = true
        · simp [backupScan, he2, List.filter_cons, List.find?_cons, hp]
        · have hp2 : (decide (r ≤ h.emergencyBeds.available) &&
              hasServices req h) = false := by
            cases hx : (decide (r ≤ h.emergencyBeds.available) &&
                hasServices req h)
            · rfl
            · exact absurd hx hp
          simp [backupScan, he2, List.filter_cons, List.find?_cons, hp2, ih]

theorem mem_sortByDistance (dist : ℚ → ℚ → ℚ → ℚ → ℚ) (lat lng : ℚ)
    (hospitals : List Hospital) (h : Hospital) :
    h ∈ sortByDistance dist lat lng hospitals ↔ h ∈ hospitals :=
  mem_jsSortLe _ hospitals h

theorem perm_sortByDistance (dist : ℚ → ℚ → ℚ → ℚ → ℚ) (lat lng : ℚ)
    (hospitals : List Hospital) :
    List.Perm (sortByDistance dist lat lng hospitals) hospitals :=
  perm_jsSortLe _ hospitals

/-- The ranked list really is ordered by distance ascending (with stability
over distance ties given by filter_jsSortLe). -/
theorem sortByDistance_sorted (dist : ℚ → ℚ → ℚ → ℚ → ℚ) (lat lng : ℚ)
    (hospitals : List Hospital) :
    (sortByDistance dist lat lng hospitals).Pairwise
      (fun a b => dist lat lng a.latitude a.longitude ≤
        dist lat lng b.latitude b.longitude) := by
  refine List.Pairwise.imp ?_ (pairwise_jsSortLe _ ?_ ?_ hospitals)
  · intro a b hab
    have := decide_eq_true_eq.mp hab
    linarith
  · intro a b
    rcases le_total (dist lat lng a.latitude a.longitude)
      (dist lat lng b.latitude b.longitude) with h | h
    · left
      exact decide_eq_true (by linarith)
    · right
      exact decide_eq_true (by linarith)
  · intro a b c hab hbc
    rw [decide_eq_true_eq] at hab hbc ⊢
    linarith

/-- C8: findBackupHospital returns the nearest hospital other than the
excluded name with raw (not ledger-adjusted) available emergency beds at least
requiredBeds and every required capability; it returns null exactly when no
hospital of the list qualifies. -/
theorem c8_backup_finder :
    ∀ (dist : ℚ → ℚ → ℚ → ℚ → ℚ) (lat lng : ℚ) (hospitals : List Hospital)
      (excl : Option String) (requiredBeds : Nat)
      (required : List HospitalServiceKey),
      findBackupHospital dist lat lng hospitals excl requiredBeds required =
        specBackup dist lat lng hospitals excl requiredBeds required ∧
      (findBackupHospital dist lat lng hospitals excl requiredBeds required =
          none ↔
        ∀ h ∈ hospitals, ¬(some h.name ≠ excl ∧
          requiredBeds ≤ h.emergencyBeds.available ∧
          hasServices required h = true)) := by
  intro dist lat lng hospitals excl r req
  have hmain : findBackupHospital dist lat lng hospitals excl r req =
      specBackup dist lat lng hospitals excl r req := by
    unfold findBackupHospital specBackup
    exact backupScan_eq excl r req _
  refine ⟨hmain, ?_⟩
  rw [hmain]
  unfold specBackup
  rw [List.find?_eq_none]
  constructor
  · intro H h hmem hc
    obtain ⟨hne, hbeds, hsvc⟩ := hc
    have hfil : h ∈ (sortByDistance dist lat lng hospitals).filter
        (fun x => !(some x.name == excl)) := by
      rw [List.mem_filter]
      refine ⟨(mem_sortByDistance dist lat lng hospitals h).mpr hmem, ?_⟩
      simp [beq_iff_eq]
      exact fun hx => hne (by simp [hx])
    have := H h hfil
    simp only [Bool.and_eq_true, decide_eq_true_eq] at this
    exact this ⟨hbeds, hsvc⟩
  · intro H h hfil hc
    rw [List.mem_filter] at hfil
    obtain ⟨hmem, hne⟩ := hfil
    simp only [Bool.and_eq_true, decide_eq_true_eq] at hc
    refine H h ((mem_sortByDistance dist lat lng hospitals h).mp hmem) ?_
    refine ⟨?_, hc.1, hc.2⟩
    intro hx
    simp [hx] at hne

theorem setAuxiliaryResources_name (h : Hospital) (icu peds : BedPool)
    (lab pharm : Nat) :
    (setAuxiliaryResources h icu peds lab pharm).name = h.name := rfl

theorem setAuxiliaryResources_emergencyBeds (h : Hospital) (icu peds : BedPool)
    (lab pharm : Nat) :
    (setAuxiliaryResources h icu peds lab pharm).emergencyBeds =
      h.emergencyBeds := rfl

theorem serviceOf_setAuxiliaryResources (h : Hospital) (icu peds : BedPool)
    (lab pharm : Nat) (k : HospitalServiceKey) :
    serviceOf (setAuxiliaryResources h icu peds lab pharm) k = serviceOf h k := by
  cases k <;> rfl

theorem hasServices_setAuxiliaryResources (req : List HospitalServiceKey)
    (h : Hospital) (icu peds : BedPool) (lab pharm : Nat) :
    hasServices req (setAuxiliaryResources h icu peds lab pharm) =
      hasServices req h := by
  unfold hasServices
  exact congrArg req.all
    (funext fun k => serviceOf_setAuxiliaryResources h icu peds lab pharm k)

theorem backupScan_setAux (excl : Option String) (r : Nat)
    (req : List HospitalServiceKey)
    (f : Hospital → BedPool × BedPool × Nat × Nat) (l : List Hospital) :
    backupScan excl r req
        (l.map (fun h =>
          setAuxiliaryResources h (f h).1 (f h).2.1 (f h).2.2.1 (f h).2.2.2)) =
      Option.map (fun h =>
          setAuxiliaryResources h (f h).1 (f h).2.1 (f h).2.2.1 (f h).2.2.2)
        (backupScan excl r req l) := by
  induction l with
  | nil => rfl
  | cons h t ih =>
      simp only [List.map_cons, backupScan, hasServices_setAuxiliaryResources,
        setAuxiliaryResources_name, setAuxiliaryResources_emergencyBeds]
      by_cases he : (some h.name == excl) = true
      · simp only [he, if_true]
        exact ih
      · have he2 : (some h.name == excl) = false := by
          cases hx : (some h.name == excl)
          · rfl
          · exact absurd hx he
        simp only [he2, Bool.false_eq_true, if_false]
        by_cases hp : (decide (r ≤ h.emergencyBeds.available) &&
            hasServices req h) = true
        · simp [hp]
        · have hp2 : (decide (r ≤ h.emergencyBeds.available) &&
              hasServices req h) = false := by
            cases hx : (decide (r ≤ h.emergencyBeds.available) &&
                hasServices req h)
            · rfl
            · exact absurd hx hp
          simp only [hp2, Bool.false_eq_true, if_false]
          exact ih

/-- C10: the choice made by the batch selector and by the backup finder depends
on no bed pool other than the emergency beds — replacing every hospital's ICU
beds, pediatric beds, lab slots and pharmacy slots arbitrarily maps the result
through the same replacement, so capacity is decided by emergency beds alone. -/
theorem c10_capacity_uses_only_emergency_beds :
    ∀ (dist : ℚ → ℚ → ℚ → ℚ → ℚ) (lat lng : ℚ) (hospitals : List Hospital)
      (usedCapacity : List (String × Nat)) (requiredBeds : Nat)
      (required : List HospitalServiceKey) (excl : Option String)
      (f : Hospital → BedPool × BedPool × Nat × Nat),
      findNearestHospitalWithCapacityAndServices dist lat lng
          (hospitals.map (fun h =>
            setAuxiliaryResources h (f h).1 (f h).2.1 (f h).2.2.1 (f h).2.2.2))
          usedCapacity requiredBeds required =
        Option.map (fun h =>
            setAuxiliaryResources h (f h).1 (f h).2.1 (f h).2.2.1 (f h).2.2.2)
          (findNearestHospitalWithCapacityAndServices dist lat lng hospitals
            usedCapacity requiredBeds required) ∧
      findBackupHospital dist lat lng
          (hospitals.map (fun h =>
            setAuxiliaryResources h (f h).1 (f h).2.1 (f h).2.2.1 (f h).2.2.2))
          excl requiredBeds required =
        Option.map (fun h =>
            setAuxiliaryResources h (f h).1 (f h).2.1 (f h).2.2.1 (f h).2.2.2)
          (findBackupHospital dist lat lng hospitals excl requiredBeds
            required) := by
  intro dist lat lng hospitals u r req excl f
  have hsort : sortByDistance dist lat lng
      (hospitals.map (fun h =>
        setAuxiliaryResources h (f h).1 (f h).2.1 (f h).2.2.1 (f h).2.2.2)) =
      (sortByDistance dist lat lng hospitals).map (fun h =>
        setAuxiliaryResources h (f h).1 (f h).2.1 (f h).2.2.1 (f h).2.2.2) :=
    jsSortLe_map _ _ _ (fun a b => rfl) hospitals
  have g1 : ((fun h => capOk u r h && hasServices req h) ∘ fun h =>
      setAuxiliaryResources h (f h).1 (f h).2.1 (f h).2.2.1 (f h).2.2.2) =
      (fun h => capOk u r h && hasServices req h) := by
    funext h
    show (capOk u r (setAuxiliaryResources h (f h).1 (f h).2.1 (f h).2.2.1
          (f h).2.2.2) &&
        hasServices req (setAuxiliaryResources h (f h).1 (f h).2.1
          (f h).2.2.1 (f h).2.2.2)) =
      (capOk u r h && hasServices req h)
    rw [hasServices_setAuxiliaryResources]
    rfl
  have g2 : ((fun h => capOk u r h) ∘ fun h =>
      setAuxiliaryResources h (f h).1 (f h).2.1 (f h).2.2.1 (f h).2.2.2) =
      (fun h => capOk u r h) := funext fun h => rfl
  have g3 : ((fun h => hasServices req h) ∘ fun h =>
      setAuxiliaryResources h (f h).1 (f h).2.1 (f h).2.2.1 (f h).2.2.2) =
      (fun h => hasServices req h) :=
    funext fun h => hasServices_setAuxiliaryResources req h _ _ _ _
  constructor
  · simp only [findNearestHospitalWithCapacityAndServices]
    rw [hsort, List.find?_map, List.find?_map, List.find?_map, List.head?_map,
      g1, g2, g3]
    rcases hf1 : (sortByDistance dist lat lng hospitals).find?
        (fun h => capOk u r h && hasServices req h) with _ | h1
    · rcases hf2 : (sortByDistance dist lat lng hospitals).find?
          (fun h => capOk u r h) with _ | h2
      · rcases hf3 : (sortByDistance dist lat lng hospitals).find?
            (fun h => hasServices req h) with _ | h3
        · simp
        · simp
      · simp
    · simp
  · unfold findBackupHospital
    rw [hsort]
    exact backupScan_setAux excl r req f _

/-- C5: the engine's group processing order is the stable sort of the grouped
list by the spec's key — minimum member severity rank ascending, then total
victim count descending (full ties keep input order by the stability lemma
filter_jsSortLe). -/
theorem c5_priority_order :
    ∀ (reqServices : EmergencyCase → List HospitalServiceKey)
      (cases : List EmergencyCase),
      orderedPlaceGroups reqServices cases =
        jsSortLe prioritySpecLe (rawPlaceGroups reqServices cases) := by
  intro req cases
  unfold orderedPlaceGroups
  have hcmp : groupCmpLe = prioritySpecLe := by
    funext a b
    unfold groupCmpLe prioritySpecLe
    refine decide_eq_decide.mpr ?_
    by_cases h : minSevRank a.caseList ≠ minSevRank b.caseList
    · rw [if_pos h]
      omega
    · rw [if_neg h]
      omega
  rw [hcmp]

theorem severityCmpLe_total :
    ∀ a b, severityCmpLe a b = true ∨ severityCmpLe b a = true := by
  intro a b
  unfold severityCmpLe
  rcases le_total (severityOrder a.severity : ℤ) (severityOrder b.severity)
    with h | h
  · left
    exact decide_eq_true (by omega)
  · right
    exact decide_eq_true (by omega)

theorem severityCmpLe_trans :
    ∀ a b c, severityCmpLe a b = true → severityCmpLe b c = true →
      severityCmpLe a c = true := by
  intro a b c hab hbc
  unfold severityCmpLe at hab hbc ⊢
  rw [decide_eq_true_eq] at hab hbc ⊢
  omega

/-- C6, counterexample: with two equal-severity cases of the same place where
the later report arrives first in the input, the grouper's member list keeps
input order (the severity sort is stable and nothing orders ties by time), so
it is not ascending by report time as the claim states. -/
theorem c6_counterexample :
    rawPlaceGroups noRequired [caseLate, caseEarly] =
      [mkPlaceGroup noRequired "P" [caseLate, caseEarly]] ∧
    (mkPlaceGroup noRequired "P" [caseLate, caseEarly]).caseList =
      [caseLate, caseEarly] ∧
    caseLate.severity = caseEarly.severity ∧
    caseEarly.timeOfReport < caseLate.timeOfReport ∧
    ¬ List.Pairwise specMemberOrder
        (mkPlaceGroup noRequired "P" [caseLate, caseEarly]).caseList := by
  refine ⟨rfl, by decide, rfl, by decide, ?_⟩
  intro hpw
  have h12 : specMemberOrder caseLate caseEarly := by
    have he : (mkPlaceGroup noRequired "P" [caseLate, caseEarly]).caseList =
        [caseLate, caseEarly] := by decide
    rw [he] at hpw
    rcases List.pairwise_cons.mp hpw with ⟨hall, _⟩
    exact hall caseEarly (by simp)
  rcases h12 with hlt | ⟨_, hle⟩
  · exact absurd hlt (by decide)
  · exact absurd hle (by decide)

/-- C6, amended: the grouper sorts each member list ascending by severity rank,
and among members of equal severity keeps the original input order (the sort is
stable); report time plays no role.  The sorted list is a permutation of the
members. -/
theorem c6_member_order_amended :
    ∀ (reqServices : EmergencyCase → List HospitalServiceKey)
      (placeName : String) (caseList : List EmergencyCase),
      List.Pairwise
        (fun a b => severityOrder a.severity ≤ severityOrder b.severity)
        (mkPlaceGroup reqServices placeName caseList).caseList ∧
      (∀ r : Nat,
        (mkPlaceGroup reqServices placeName caseList).caseList.filter
            (fun c => severityOrder c.severity == r) =
          caseList.filter (fun c => severityOrder c.severity == r)) ∧
      List.Perm (mkPlaceGroup reqServices placeName caseList).caseList
        caseList := by
  intro req p cs
  have hlist : (mkPlaceGroup req p cs).caseList = jsSortLe severityCmpLe cs :=
    rfl
  refine ⟨?_, ?_, ?_⟩
  · rw [hlist]
    refine List.Pairwise.imp ?_
      (pairwise_jsSortLe severityCmpLe severityCmpLe_total severityCmpLe_trans
        cs)
    intro a b hab
    have := decide_eq_true_eq.mp hab
    omega
  · intro r
    rw [hlist]
    refine filter_jsSortLe severityCmpLe _ cs ?_
    intro a b ha hb
    have ha2 : severityOrder a.severity = r := by
      simpa using ha
    have hb2 : severityOrder b.severity = r := by
      simpa using hb
    unfold severityCmpLe
    exact decide_eq_true (by omega)
  · rw [hlist]
    exact perm_jsSortLe severityCmpLe cs

theorem findNearest_isSome (dist : ℚ → ℚ → ℚ → ℚ → ℚ) (lat lng : ℚ)
    (hospitals : List Hospital) (u : List (String × Nat)) (r : Nat)
    (req : List HospitalServiceKey) (hne : hospitals ≠ []) :
    (findNearestHospitalWithCapacityAndServices dist lat lng hospitals u r
        req).isSome = true := by
  have hbd : sortByDistance dist lat lng hospitals ≠ [] :=
    jsSortLe_ne_nil _ hospitals hne
  simp only [findNearestHospitalWithCapacityAndServices]
  rcases h1 : (sortByDistance dist lat lng hospitals).find?
      (fun h => capOk u r h && hasServices req h) with _ | a
  · rcases h2 : (sortByDistance dist lat lng hospitals).find?
        (fun h => capOk u r h) with _ | a
    · rcases h3 : (sortByDistance dist lat lng hospitals).find?
          (fun h => hasServices req h) with _ | a
      · rcases hl : sortByDistance dist lat lng hospitals with _ | ⟨x, xs⟩
        · exact absurd hl hbd
        · simp [hl]
      · simp
    · simp
  · simp

theorem runPass_isSome (dist : ℚ → ℚ → ℚ → ℚ → ℚ) (hospitals : List Hospital)
    (hne : hospitals ≠ []) :
    ∀ (groups : List PlaceGroup)
      (st : List (String × Nat) × List (String × String)) (p : String),
      (p ∈ groups.map PlaceGroup.placeName ∨ (mapGet? st.2 p).isSome = true) →
      (mapGet? (runPass dist hospitals groups st).2 p).isSome = true := by
  intro groups
  induction groups with
  | nil =>
      intro st p hp
      rcases hp with hp | hp
      · simp at hp
      · simpa [runPass] using hp
  | cons g gs ih =>
      intro st p hp
      have hcons : runPass dist hospitals (g :: gs) st =
          runPass dist hospitals gs (assignStep dist hospitals st g) := rfl
      rw [hcons]
      have hsome := findNearest_isSome dist g.lat g.lng hospitals st.1
        g.totalVictims g.requiredServices hne
      rcases hf : findNearestHospitalWithCapacityAndServices dist g.lat g.lng
          hospitals st.1 g.totalVictims g.requiredServices with _ | a
      · rw [hf] at hsome
        simp at hsome
      · have hstep : assignStep dist hospitals st g =
            (mapSet st.1 a.name (mapGetD st.1 a.name 0 + g.totalVictims),
             mapSet st.2 g.placeName a.name) := by
          unfold assignStep
          rw [hf]
        rcases hp with hp | hp
        · rcases List.mem_map.mp hp with ⟨g2, hg2, hg2name⟩
          rcases List.mem_cons.mp hg2 with rfl | hg2
          · refine ih _ p (Or.inr ?_)
            rw [hstep]
            have : mapGet? (mapSet st.2 g2.placeName a.name) p = some a.name := by
              rw [mapGet?_mapSet, if_pos hg2name.symm]
            simp [this]
          · exact ih _ p (Or.inl (hg2name ▸ List.mem_map_of_mem _ hg2))
        · refine ih _ p (Or.inr ?_)
          rw [hstep]
          exact mapGet?_isSome_mapSet st.2 g.placeName p a.name hp

theorem byPlace_isSome :
    ∀ (cases : List EmergencyCase)
      (m : List (String × List EmergencyCase)) (p : String),
      (p ∈ cases.map EmergencyCase.placeName ∨ (mapGet? m p).isSome = true) →
      (mapGet? (cases.foldl (fun m c =>
          mapSet m c.placeName (mapGetD m c.placeName [] ++ [c])) m) p).isSome =
        true := by
  intro cases
  induction cases with
  | nil =>
      intro m p hp
      rcases hp with hp | hp
      · simp at hp
      · simpa using hp
  | cons c cs ih =>
      intro m p hp
      rw [List.foldl_cons]
      rcases hp with hp | hp
      · rcases List.mem_map.mp hp with ⟨c2, hc2, hc2name⟩
        rcases List.mem_cons.mp hc2 with rfl | hc2
        · refine ih _ p (Or.inr ?_)
          have : mapGet? (mapSet m c2.placeName
              (mapGetD m c2.placeName [] ++ [c2])) p =
              some (mapGetD m c2.placeName [] ++ [c2]) := by
            rw [mapGet?_mapSet, if_pos hc2name.symm]
          simp [this]
        · exact ih _ p (Or.inl (hc2name ▸ List.mem_map_of_mem _ hc2))
      · exact ih _ p (Or.inr (mapGet?_isSome_mapSet m c.placeName p _ hp))

theorem rawPlaceGroups_placeNames
    (reqServices : EmergencyCase → List HospitalServiceKey)
    (cases : List EmergencyCase) :
    (rawPlaceGroups reqServices cases).map PlaceGroup.placeName =
      (byPlace cases).map Prod.fst := by
  unfold rawPlaceGroups
  rw [List.map_map]
  rfl

/-- C2: after one pass, assignments are null exactly for an empty hospital
list — with no hospital every case is mapped to null, and with at least one
hospital every case receives a non-null assignment. -/
theorem c2_total_assignment :
    ∀ (dist : ℚ → ℚ → ℚ → ℚ → ℚ)
      (reqServices : EmergencyCase → List HospitalServiceKey)
      (cases : List EmergencyCase) (hospitals : List Hospital),
      (hospitals = [] →
        (assignCasesToHospitals dist reqServices cases hospitals).map
            (fun c => c.assignedHospital) =
          cases.map (fun _ => none)) ∧
      (hospitals ≠ [] →
        (assignCasesToHospitals dist reqServices cases hospitals).all
          (fun c => c.assignedHospital.isSome) = true) := by
  intro dist req cases hospitals
  constructor
  · intro h
    subst h
    have hemp : assignCasesToHospitals dist req cases [] =
        cases.map (fun c => { c with assignedHospital := none }) := by
      unfold assignCasesToHospitals
      simp only [List.length_nil]
      rw [if_pos trivial]
    rw [hemp, List.map_map]
    rfl
  · intro hne
    have hlen : ¬ hospitals.length = 0 := by
      simpa [List.length_eq_zero] using hne
    simp only [assignCasesToHospitals, if_neg hlen]
    rw [List.all_eq_true]
    intro c hc
    rcases List.mem_map.mp hc with ⟨c0, hc0, rfl⟩
    show (mapGet? (runPass dist hospitals (orderedPlaceGroups req cases)
        ([], [])).2 c0.placeName).isSome = true
    refine runPass_isSome dist hospitals hne _ _ _ (Or.inl ?_)
    have h1 : (mapGet? (byPlace cases) c0.placeName).isSome = true := by
      unfold byPlace
      exact byPlace_isSome cases [] c0.placeName
        (Or.inl (List.mem_map_of_mem _ hc0))
    have h2 : c0.placeName ∈ (byPlace cases).map Prod.fst :=
      mem_keys_of_mapGet?_isSome _ _ h1
    have h3 : c0.placeName ∈ (rawPlaceGroups req cases).map
        PlaceGroup.placeName := by
      rw [rawPlaceGroups_placeNames]
      exact h2
    have hperm := (perm_jsSortLe groupCmpLe (rawPlaceGroups req cases)).map
      PlaceGroup.placeName
    exact hperm.mem_iff.mpr h3

theorem runPass_fst (dist : ℚ → ℚ → ℚ → ℚ → ℚ) (hospitals : List Hospital) :
    ∀ (groups : List PlaceGroup)
      (st : List (String × Nat) × List (String × String)),
      (runPass dist hospitals groups st).1 =
        ledgerAfter dist hospitals st.1 groups := by
  intro groups
  induction groups with
  | nil => intro st; rfl
  | cons g gs ih =>
      intro st
      have hcons : runPass dist hospitals (g :: gs) st =
          runPass dist hospitals gs (assignStep dist hospitals st g) := rfl
      rw [hcons, ih]
      rcases hf : findNearestHospitalWithCapacityAndServices dist g.lat g.lng
          hospitals st.1 g.totalVictims g.requiredServices with _ | a
      · have h1 : assignStep dist hospitals st g = st := by
          unfold assignStep
          rw [hf]
        rw [h1]
        simp only [ledgerAfter, hf]
      · have h1 : assignStep dist hospitals st g =
            (mapSet st.1 a.name (mapGetD st.1 a.name 0 + g.totalVictims),
             mapSet st.2 g.placeName a.name) := by
          unfold assignStep
          rw [hf]
        rw [h1]
        simp only [ledgerAfter, hf]

theorem ledgerAfter_additive (dist : ℚ → ℚ → ℚ → ℚ → ℚ)
    (hospitals : List Hospital) (n : String) :
    ∀ (groups : List PlaceGroup) (led : List (String × Nat)),
      mapGetD (ledgerAfter dist hospitals led groups) n 0 =
        mapGetD led n 0 +
          (((passAssignments dist hospitals led groups).filter
              (fun e => e.2 == n)).map (fun e => e.1.totalVictims)).sum := by
  intro groups
  induction groups with
  | nil => intro led; simp [ledgerAfter, passAssignments]
  | cons g gs ih =>
      intro led
      rcases hf : findNearestHospitalWithCapacityAndServices dist g.lat g.lng
          hospitals led g.totalVictims g.requiredServices with _ | a
      · simp only [ledgerAfter, passAssignments, hf]
        exact ih led
      · simp only [ledgerAfter, passAssignments, hf]
        rw [ih]
        rw [mapGetD_mapSet]
        by_cases hn : a.name = n
        · subst hn
          have hb : ((g, a.name).2 == a.name) = true := beq_iff_eq.mpr rfl
          rw [List.filter_cons, if_pos hb, List.map_cons, List.sum_cons,
            if_pos rfl,
            show (g, a.name).1.totalVictims = g.totalVictims from rfl]
          omega
        · have hb : ((g, a.name).2 == n) = false := by
            simpa [beq_iff_eq] using hn
          have hb2 : ¬ (((g, a.name).2 == n) = true) := by
            rw [hb]
            exact Bool.false_ne_true
          rw [List.filter_cons, if_neg hb2, if_neg (fun hc => hn hc.symm)]

theorem ledgerAfter_append (dist : ℚ → ℚ → ℚ → ℚ → ℚ)
    (hospitals : List Hospital) :
    ∀ (gs₁ gs₂ : List PlaceGroup) (led : List (String × Nat)),
      ledgerAfter dist hospitals led (gs₁ ++ gs₂) =
        ledgerAfter dist hospitals (ledgerAfter dist hospitals led gs₁) gs₂ := by
  intro gs₁
  induction gs₁ with
  | nil => intro gs₂ led; rfl
  | cons g gs ih =>
      intro gs₂ led
      rw [List.cons_append]
      rcases hf : findNearestHospitalWithCapacityAndServices dist g.lat g.lng
          hospitals led g.totalVictims g.requiredServices with _ | a
      · simp only [ledgerAfter, hf]
        exact ih gs₂ led
      · simp only [ledgerAfter, hf]
        exact ih gs₂ _

theorem ledgerAfter_mono (dist : ℚ → ℚ → ℚ → ℚ → ℚ)
    (hospitals : List Hospital) (n : String) :
    ∀ (gs : List PlaceGroup) (led : List (String × Nat)),
      mapGetD led n 0 ≤ mapGetD (ledgerAfter dist hospitals led gs) n 0 := by
  intro gs
  induction gs with
  | nil => intro led; simp [ledgerAfter]
  | cons g gs ih =>
      intro led
      rcases hf : findNearestHospitalWithCapacityAndServices dist g.lat g.lng
          hospitals led g.totalVictims g.requiredServices with _ | a
      · simp only [ledgerAfter, hf]
        exact ih led
      · simp only [ledgerAfter, hf]
        refine le_trans ?_ (ih _)
        rw [mapGetD_mapSet]
        by_cases hn : n = a.name
        · rw [if_pos hn, show mapGetD led n 0 = mapGetD led a.name 0
            from hn ▸ rfl]
          omega
        · rw [if_neg hn]

/-- C4: within one pass the ledger starts empty (the engine invokes the loop
with the empty pair, and runPass projects onto ledgerAfter from that start),
every value is a natural number hence nonnegative, values never decrease as
further groups are processed, and the final value of every hospital equals the
sum of the victim counts of exactly the groups the pass assigned to it. -/
theorem c4_ledger_invariants :
    ∀ (dist : ℚ → ℚ → ℚ → ℚ → ℚ) (hospitals : List Hospital)
      (groups gs₂ : List PlaceGroup) (m₀ : List (String × String))
      (n : String),
      (runPass dist hospitals groups ([], m₀)).1 =
        ledgerAfter dist hospitals [] groups ∧
      mapGetD (ledgerAfter dist hospitals [] groups) n 0 =
        (((passAssignments dist hospitals [] groups).filter
            (fun e => e.2 == n)).map (fun e => e.1.totalVictims)).sum ∧
      mapGetD (ledgerAfter dist hospitals [] groups) n 0 ≤
        mapGetD (ledgerAfter dist hospitals [] (groups ++ gs₂)) n 0 ∧
      0 ≤ mapGetD (ledgerAfter dist hospitals [] groups) n 0 := by
  intro dist hospitals groups gs₂ m₀ n
  refine ⟨runPass_fst dist hospitals groups ([], m₀), ?_, ?_, Nat.zero_le _⟩
  · simpa [mapGetD, mapGet?] using ledgerAfter_additive dist hospitals n groups []
  · rw [ledgerAfter_append]
    exact ledgerAfter_mono dist hospitals n gs₂ _

/-- C9: the assignment pass is deterministic and holds no state between
invocations — two runs on the same case and hospital lists produce the
identical case-to-hospital mapping, and each equals a single fresh run. -/
theorem c9_deterministic_stateless :
    ∀ (dist : ℚ → ℚ → ℚ → ℚ → ℚ)
      (reqServices : EmergencyCase → List HospitalServiceKey)
      (cases : List EmergencyCase) (hospitals : List Hospital),
      (invokeEngineTwice dist reqServices cases hospitals).1 =
        (invokeEngineTwice dist reqServices cases hospitals).2 ∧
      (invokeEngineTwice dist reqServices cases hospitals).1 =
        assignCasesToHospitals dist reqServices cases hospitals :=
  fun _ _ _ _ => ⟨rfl, rfl⟩

/-- Witness for C2 at a one-case, one-hospital input: the hospital list is
non-empty and every case of the pass output carries an assignment. -/
theorem c2_total_assignment_witness :
    (assignCasesToHospitals sqDist noRequired [caseLate] [hospitalCHU]).all
      (fun c => c.assignedHospital.isSome) = true :=
  (c2_total_assignment sqDist noRequired [caseLate] [hospitalCHU]).2
    (by simp)

end Api

